import Mathlib

/-!
Shallow embedding of `NiaPy/algorithms/modified/jde.py`
(`SolutionjDE` and `SelfAdaptiveDifferentialEvolutionAlgorithm`).

Python floats are modelled as rationals (`ℚ`), the `float('inf')`
fitness sentinel as `⊤` in `WithTop ℚ`.  The random library is modelled
as an oracle supplying the results of the successive `rnd.random()`
calls and of the successive `rnd.sample(range(0, Np), 3)` calls; the
program is a deterministic function of that oracle, with explicit
counters for how many draws of each kind have been consumed.

The engine attributes `self.Tao`, `self.F` and `self.Cr` are read by
`generationStep` but never assigned by the class (the `F` and `Cr`
constructor parameters are discarded), so they are modelled as
`Option ℚ` fields; reading a `none` field raises the Python
`AttributeError`, modelled by `Err.attrError`.  Loops whose termination
depends on the oracle (the donor-triple rejection loop and the main
`while` loop) take fuel; exhausted fuel (`Err.noFuel`) models
non-termination.
-/

/-- The random library: `rand n` is the result of the `n`-th call of
`rnd.random()`, `sample n` the result of the `n`-th call of
`rnd.sample(range(0, Np), 3)`. -/
structure Oracle where
  rand : ℕ → ℚ
  sample : ℕ → List ℕ

/-- Contract of `rnd.random()`: every draw lies in `[0, 1)`. -/
def Oracle.ValidRand (o : Oracle) : Prop :=
  ∀ n, 0 ≤ o.rand n ∧ o.rand n < 1

/-- Contract of `rnd.sample(range(0, Np), 3)`: three distinct members
of `0..Np-1`. -/
def Oracle.ValidSample (o : Oracle) (Np : ℕ) : Prop :=
  ∀ n, (o.sample n).length = 3 ∧ (o.sample n).Nodup ∧ ∀ x ∈ o.sample n, x < Np

/-- Python class `SolutionjDE`. -/
structure SolutionjDE where
  D : ℕ
  LB : ℚ
  UB : ℚ
  F : ℚ
  Cr : ℚ
  Solution : List ℚ
  Fitness : WithTop ℚ
deriving DecidableEq

/-- Stand-in for an out-of-range list access (never reached on the
indices the engine actually uses). -/
def dummySol : SolutionjDE :=
  { D := 0, LB := 0, UB := 0, F := 1/2, Cr := 9/10, Solution := [], Fitness := ⊤ }

/-- Method `SolutionjDE.generateSolution`: `self.Solution = [self.LB + (self.UB -
self.LB) * rnd.random() for _i in range(self.D)]`, the `j`-th entry using
the `(r + j)`-th random draw. -/
def generateSolution (D : ℕ) (LB UB : ℚ) (o : Oracle) (r : ℕ) : List ℚ :=
  (List.range D).map (fun j => LB + (UB - LB) * o.rand (r + j))

/-- Constructor `SolutionjDE.__init__`: fresh candidate with `F = 0.5`, `Cr = 0.9`,
`Fitness = float('inf')` and a random vector (consumes `D` draws
starting at position `r`). -/
def mkSolution (D : ℕ) (LB UB : ℚ) (o : Oracle) (r : ℕ) : SolutionjDE :=
  { D := D, LB := LB, UB := UB, F := 1/2, Cr := 9/10,
    Solution := generateSolution D LB UB o r, Fitness := ⊤ }

/-- Method `SolutionjDE.evaluate`: `self.Fitness = SolutionjDE.FuncEval(self.D,
self.Solution)`, with `f` the bound objective function. -/
def evaluateSol (f : ℕ → List ℚ → ℚ) (s : SolutionjDE) : SolutionjDE :=
  { s with Fitness := (f s.D s.Solution : WithTop ℚ) }

/-- Body of `SolutionjDE.repair` for one component: `if x > UB: x = UB`
then `if x < LB: x = LB` (in this order). -/
def repairVal (LB UB x : ℚ) : ℚ :=
  let x1 := if UB < x then UB else x
  if x1 < LB then LB else x1

/-- Method `SolutionjDE.repair`: clamp every component of the vector. -/
def SolutionjDE.repair (s : SolutionjDE) : SolutionjDE :=
  { s with Solution := s.Solution.map (repairVal s.LB s.UB) }

/-- Python class `SelfAdaptiveDifferentialEvolutionAlgorithm`.  `Tao`,
`F` and `Cr` are attributes read by `generationStep`; the class never
assigns them (`none` = attribute absent). -/
structure Engine where
  D : ℕ
  Np : ℕ
  nFES : ℕ
  Lower : ℚ
  Upper : ℚ
  Tao : Option ℚ
  F : Option ℚ
  Cr : Option ℚ
  Population : List SolutionjDE
  bestSolution : SolutionjDE
deriving DecidableEq

/-- Constructor `SelfAdaptiveDifferentialEvolutionAlgorithm.__init__(D, NP, nFES, F,
Cr, Lower, Upper, function)`: stores `D`, `NP`, `nFES`, `Lower`, `Upper`,
discards the `F` and `Cr` parameters, never assigns `Tao`/`F`/`Cr`
attributes, sets `Population = []` and creates (without evaluating) a
fresh `bestSolution` (consuming `D` draws starting at `r`). -/
def initEngine (D NP nFES : ℕ) (_Fparam _Crparam : ℚ) (Lower Upper : ℚ)
    (o : Oracle) (r : ℕ) : Engine :=
  { D := D, Np := NP, nFES := nFES, Lower := Lower, Upper := Upper,
    Tao := none, F := none, Cr := none,
    Population := [],
    bestSolution := mkSolution D Lower Upper o r }

/-- Run-time failures: `attrError` models Python's `AttributeError`
(reading the unassigned `Tao`/`F`/`Cr`), `noFuel` models
non-termination of a loop. -/
inductive Err where
  | attrError : Err
  | noFuel : Err
deriving DecidableEq

deriving instance DecidableEq for Except

/-- Threaded interpreter state: `r`/`s` count the consumed
`rnd.random()` / `rnd.sample` calls, `log` records the argument-order
list of all objective-function results computed so far (one entry per
`evaluate()` call), and `best` is `self.bestSolution`. -/
structure RState where
  r : ℕ
  s : ℕ
  log : List ℚ
  best : SolutionjDE
deriving DecidableEq

/-- Method `evalPopulation`: `for p in self.Population: p.evaluate(); if
p.Fitness < self.bestSolution.Fitness: self.bestSolution = deepcopy(p)`.
Returns the evaluated population and the updated state. -/
def evalPopulation (f : ℕ → List ℚ → ℚ) :
    List SolutionjDE → RState → List SolutionjDE × RState
  | [], st => ([], st)
  | p :: rest, st =>
      let p' := evaluateSol f p
      let st' : RState :=
        { st with log := st.log ++ [f p.D p.Solution],
                  best := if p'.Fitness < st.best.Fitness then p' else st.best }
      let q := evalPopulation f rest st'
      (p' :: q.1, q.2)

/-- Method `initPopulation`: `for _i in range(self.Np):
self.Population.append(SolutionjDE(self.D, self.Lower, self.Upper))`,
the `k`-th candidate consuming draws `r + k*D .. r + k*D + D - 1`. -/
def initPopulation (D NP : ℕ) (LB UB : ℚ) (o : Oracle) (r : ℕ) : List SolutionjDE :=
  (List.range NP).map (fun k => mkSolution D LB UB o (r + k * D))

/-- Statements `r = rnd.sample(range(0, self.Np), 3); while i in r: r =
rnd.sample(range(0, self.Np), 3)` — rejection sampling of the donor
triple, starting at sample counter `s`, with fuel. -/
def sampleLoop (o : Oracle) (i : ℕ) : ℕ → ℕ → Option (List ℕ × ℕ)
  | _, 0 => none
  | s, fuel + 1 =>
      let cand := o.sample s
      if i ∈ cand then sampleLoop o i (s + 1) fuel else some (cand, s + 1)

/-- Statement `jrand = int(rnd.random() * self.Np)`. -/
def jrandDraw (u : ℚ) (Np : ℕ) : ℕ :=
  (⌊u * (Np : ℚ)⌋).toNat

/-- The mutant value `Population[r0].Solution[j] + F *
(Population[r1].Solution[j] - Population[r2].Solution[j])`,
with `Fv` the engine attribute `self.F`. -/
def mutantVal (pop : List SolutionjDE) (Fv : ℚ) (r0 r1 r2 j : ℕ) : ℚ :=
  ((pop.getD r0 dummySol).Solution.getD j 0) +
    Fv * (((pop.getD r1 dummySol).Solution.getD j 0) -
          ((pop.getD r2 dummySol).Solution.getD j 0))

/-- The crossover loop `for j in range(self.D)`: dimension `j` becomes
the mutant value when `rnd.random() < self.Cr or j == jrand` (the draw
for dimension `j` being `o.rand (r + j)`, and `Crv`/`Fv` the engine
attributes `self.Cr`/`self.F`), else `Population[i].Solution[j]`. -/
def crossoverVec (o : Oracle) (r : ℕ) (Crv Fv : ℚ) (pop : List SolutionjDE)
    (i r0 r1 r2 jrand D : ℕ) : List ℚ :=
  (List.range D).map (fun j =>
    if o.rand (r + j) < Crv ∨ j = jrand then mutantVal pop Fv r0 r1 r2 j
    else (pop.getD i dummySol).Solution.getD j 0)

/-- The body of `generationStep` for one parent index `i`: create the
offspring, self-adapt its `F` and `Cr` from the parent via `Tao`, pick
the donor triple and `jrand`, cross over (reading the engine attributes
`self.Cr` and `self.F`), repair, evaluate, and update `bestSolution`.
Returns the evaluated offspring and the new state. -/
def evolveOne (f : ℕ → List ℚ → ℚ) (o : Oracle) (e : Engine)
    (pop : List SolutionjDE) (i : ℕ) (st : RState) (rejFuel : ℕ) :
    Except Err (SolutionjDE × RState) :=
  let base := mkSolution e.D e.Lower e.Upper o st.r
  let r1 := st.r + e.D
  match e.Tao with
  | none => .error .attrError
  | some tao =>
    let pF := if o.rand r1 < tao then (o.rand (r1 + 1), r1 + 2)
              else ((pop.getD i dummySol).F, r1 + 1)
    let pCr := if o.rand pF.2 < tao then (o.rand (pF.2 + 1), pF.2 + 2)
               else ((pop.getD i dummySol).Cr, pF.2 + 1)
    match sampleLoop o i st.s rejFuel with
    | none => .error .noFuel
    | some (rs, s') =>
      let jr := jrandDraw (o.rand pCr.2) e.Np
      let r4 := pCr.2 + 1
      match e.Cr, e.F with
      | some crv, some fv =>
        let vec := crossoverVec o r4 crv fv pop i
          (rs.getD 0 0) (rs.getD 1 0) (rs.getD 2 0) jr e.D
        let child := (SolutionjDE.repair
          { base with F := pF.1, Cr := pCr.1, Solution := vec })
        let child' := evaluateSol f child
        let best' := if child'.Fitness < st.best.Fitness then child' else st.best
        .ok (child', { r := r4 + e.D, s := s', log := st.log ++ [f child.D child.Solution],
                       best := best' })
      | _, _ => .error .attrError

/-- The loop `for i in range(self.Np)` of `generationStep`, from index
`i` with `k` indices remaining: evolve one offspring per index, then
append the offspring when `newSolution.Fitness < self.Population[i].Fitness`
and the parent `Population[i]` otherwise. -/
def generationFrom (f : ℕ → List ℚ → ℚ) (o : Oracle) (e : Engine)
    (pop : List SolutionjDE) (rejFuel : ℕ) :
    ℕ → ℕ → RState → Except Err (List SolutionjDE × RState)
  | _, 0, st => .ok ([], st)
  | i, k + 1, st =>
      match evolveOne f o e pop i st rejFuel with
      | .error err => .error err
      | .ok (child, st') =>
          let keep := if child.Fitness < (e.Population.getD i dummySol).Fitness
                      then child else pop.getD i dummySol
          match generationFrom f o e pop rejFuel (i + 1) k st' with
          | .error err => .error err
          | .ok (rest, st'') => .ok (keep :: rest, st'')

/-- Method `generationStep(self, Population)`: build the whole new population. -/
def generationStep (f : ℕ → List ℚ → ℚ) (o : Oracle) (e : Engine)
    (pop : List SolutionjDE) (rejFuel : ℕ) (st : RState) :
    Except Err (List SolutionjDE × RState) :=
  generationFrom f o e pop rejFuel 0 e.Np st

/-- The `while FEs <= self.nFES` loop of `run`: each iteration replaces
`self.Population` by `generationStep(self.Population)` and adds
`self.Np` to `FEs`.  Fuel bounds the number of iterations. -/
def runLoop (f : ℕ → List ℚ → ℚ) (o : Oracle) (rejFuel : ℕ) :
    ℕ → Engine → ℕ → RState → Except Err (Engine × RState)
  | 0, _, _, _ => .error .noFuel
  | fuel + 1, e, FEs, st =>
      if FEs ≤ e.nFES then
        match generationStep f o e e.Population rejFuel st with
        | .error err => .error err
        | .ok (pop', st') =>
            runLoop f o rejFuel fuel { e with Population := pop' } (FEs + e.Np) st'
      else .ok (e, st)

/-- Method `run(self)`: `initPopulation`, `evalPopulation`, `FEs = self.Np`,
the generational while-loop, returning the final engine and state
(`self.bestSolution.Fitness`, the Python return value, is
`st.best.Fitness`).  `r0`/`s0` are the oracle counters at entry. -/
def Engine.run (e : Engine) (f : ℕ → List ℚ → ℚ) (o : Oracle)
    (r0 s0 : ℕ) (rejFuel fuel : ℕ) : Except Err (Engine × RState) :=
  let pop := initPopulation e.D e.Np e.Lower e.Upper o r0
  let st0 : RState := { r := r0 + e.Np * e.D, s := s0, log := [], best := e.bestSolution }
  let q := evalPopulation f pop st0
  runLoop f o rejFuel fuel { e with Population := q.1 } e.Np q.2

/-- The value Python's `run` returns: `self.bestSolution.Fitness`. -/
def Engine.runFitness (e : Engine) (f : ℕ → List ℚ → ℚ) (o : Oracle)
    (r0 s0 : ℕ) (rejFuel fuel : ℕ) : Except Err (WithTop ℚ) :=
  (e.run f o r0 s0 rejFuel fuel).map (fun p => p.2.best.Fitness)

/-- The minimum of a list of observed fitness values (`⊤` when empty). -/
def listMin (l : List ℚ) : WithTop ℚ :=
  l.foldr (fun a m => min (a : WithTop ℚ) m) ⊤

/-- Invariant tying the recorded best to the evaluation log: the best
fitness equals the minimum fitness value observed so far. -/
def BestInv (st : RState) : Prop :=
  st.best.Fitness = listMin st.log

/-! ### Basic lemmas -/

theorem if_lt_eq_min (a b : WithTop ℚ) : (if a < b then a else b) = min a b := by
  rcases lt_or_le a b with h | h
  · rw [if_pos h, min_eq_left h.le]
  · rw [if_neg (not_lt.2 h), min_eq_right h]

theorem listMin_nil : listMin [] = ⊤ := rfl

theorem listMin_append (l : List ℚ) (v : ℚ) :
    listMin (l ++ [v]) = min (listMin l) (v : WithTop ℚ) := by
  induction l with
  | nil =>
      show min (v : WithTop ℚ) ⊤ = min ⊤ (v : WithTop ℚ)
      rw [min_eq_left le_top, min_eq_right le_top]
  | cons a l ih =>
      show min (a : WithTop ℚ) (listMin (l ++ [v])) =
        min (min (a : WithTop ℚ) (listMin l)) (v : WithTop ℚ)
      rw [ih, min_assoc]

/-! ### Lemmas about evalPopulation -/

theorem evalPopulation_fst (f : ℕ → List ℚ → ℚ) (pop : List SolutionjDE) (st : RState) :
    (evalPopulation f pop st).1 = pop.map (evaluateSol f) := by
  induction pop generalizing st with
  | nil => rfl
  | cons p rest ih => simp only [evalPopulation, List.map, ih]

theorem evalPopulation_log (f : ℕ → List ℚ → ℚ) (pop : List SolutionjDE) (st : RState) :
    (evalPopulation f pop st).2.log = st.log ++ pop.map (fun p => f p.D p.Solution) := by
  induction pop generalizing st with
  | nil => simp [evalPopulation]
  | cons p rest ih =>
      simp only [evalPopulation, List.map, ih, List.append_assoc, List.cons_append,
        List.nil_append]

theorem evalPopulation_bestInv (f : ℕ → List ℚ → ℚ) (pop : List SolutionjDE) (st : RState)
    (h : BestInv st) : BestInv (evalPopulation f pop st).2 := by
  induction pop generalizing st with
  | nil => exact h
  | cons p rest ih =>
      simp only [evalPopulation]
      apply ih
      unfold BestInv at h ⊢
      simp only [listMin_append, ← h]
      have hfit : (evaluateSol f p).Fitness = ((f p.D p.Solution : ℚ) : WithTop ℚ) := rfl
      by_cases hlt : (evaluateSol f p).Fitness < st.best.Fitness
      · rw [if_pos hlt, hfit]
        rw [hfit] at hlt
        rw [min_eq_right hlt.le]
      · rw [if_neg hlt]
        rw [hfit] at hlt
        rw [min_eq_left (not_lt.1 hlt)]

/-! ### Lemmas about evolveOne -/

theorem sel_fitness (c b : SolutionjDE) :
    (if c.Fitness < b.Fitness then c else b).Fitness = min c.Fitness b.Fitness := by
  by_cases h : c.Fitness < b.Fitness
  · rw [if_pos h, min_eq_left h.le]
  · rw [if_neg h, min_eq_right (not_lt.1 h)]

/-- On success, one offspring construction logs exactly one evaluation,
the offspring's fitness is that logged value, and the best is updated by
strict comparison against it. -/
theorem evolveOne_ok (f : ℕ → List ℚ → ℚ) (o : Oracle) (e : Engine)
    (pop : List SolutionjDE) (i : ℕ) (st : RState) (rejFuel : ℕ)
    (c : SolutionjDE) (st' : RState)
    (h : evolveOne f o e pop i st rejFuel = .ok (c, st')) :
    ∃ v : ℚ, c.Fitness = (v : WithTop ℚ) ∧ st'.log = st.log ++ [v] ∧
      st'.best = if c.Fitness < st.best.Fitness then c else st.best := by
  unfold evolveOne at h
  split at h
  · exact Except.noConfusion h
  · split at h
    · exact Except.noConfusion h
    · split at h
      · simp only [Except.ok.injEq, Prod.mk.injEq] at h
        obtain ⟨hcEq, hstEq⟩ := h
        subst hcEq
        subst hstEq
        exact ⟨_, rfl, rfl, rfl⟩
      · exact Except.noConfusion h

theorem evolveOne_bestInv (f : ℕ → List ℚ → ℚ) (o : Oracle) (e : Engine)
    (pop : List SolutionjDE) (i : ℕ) (st : RState) (rejFuel : ℕ)
    (c : SolutionjDE) (st' : RState)
    (h : evolveOne f o e pop i st rejFuel = .ok (c, st'))
    (hinv : BestInv st) : BestInv st' := by
  obtain ⟨v, hv, hlog, hbest⟩ := evolveOne_ok f o e pop i st rejFuel c st' h
  unfold BestInv at hinv ⊢
  rw [hlog, hbest, listMin_append, sel_fitness, hv, ← hinv, min_comm]

theorem evolveOne_best_mono (f : ℕ → List ℚ → ℚ) (o : Oracle) (e : Engine)
    (pop : List SolutionjDE) (i : ℕ) (st : RState) (rejFuel : ℕ)
    (c : SolutionjDE) (st' : RState)
    (h : evolveOne f o e pop i st rejFuel = .ok (c, st')) :
    st'.best.Fitness ≤ st.best.Fitness := by
  obtain ⟨v, hv, hlog, hbest⟩ := evolveOne_ok f o e pop i st rejFuel c st' h
  rw [hbest, sel_fitness]
  exact min_le_right _ _

theorem evolveOne_log_len (f : ℕ → List ℚ → ℚ) (o : Oracle) (e : Engine)
    (pop : List SolutionjDE) (i : ℕ) (st : RState) (rejFuel : ℕ)
    (c : SolutionjDE) (st' : RState)
    (h : evolveOne f o e pop i st rejFuel = .ok (c, st')) :
    st'.log.length = st.log.length + 1 := by
  obtain ⟨v, hv, hlog, hbest⟩ := evolveOne_ok f o e pop i st rejFuel c st' h
  rw [hlog, List.length_append, List.length_singleton]

/-- When the engine attribute `Tao` is absent (as after construction),
every offspring construction raises `AttributeError`. -/
theorem evolveOne_noTao (f : ℕ → List ℚ → ℚ) (o : Oracle) (e : Engine)
    (pop : List SolutionjDE) (i : ℕ) (st : RState) (rejFuel : ℕ)
    (h : e.Tao = none) :
    evolveOne f o e pop i st rejFuel = .error .attrError := by
  unfold evolveOne
  rw [h]

/-! ### Lemmas about generationFrom and generationStep -/

/-- Structural facts about one generational pass over indices
`i, i+1, …, i+k-1`: it produces one candidate per index, logs one
evaluation per index, preserves the best/log invariant, and never
increases the recorded best fitness. -/
theorem generationFrom_ok (f : ℕ → List ℚ → ℚ) (o : Oracle) (e : Engine)
    (pop : List SolutionjDE) (rejFuel : ℕ) (k : ℕ) :
    ∀ (i : ℕ) (st : RState) (l : List SolutionjDE) (st' : RState),
    generationFrom f o e pop rejFuel i k st = .ok (l, st') →
      l.length = k ∧ st'.log.length = st.log.length + k ∧
      (BestInv st → BestInv st') ∧ st'.best.Fitness ≤ st.best.Fitness := by
  induction k with
  | zero =>
      intro i st l st' h
      simp only [generationFrom, Except.ok.injEq, Prod.mk.injEq] at h
      obtain ⟨hl, hst⟩ := h
      subst hl; subst hst
      exact ⟨rfl, rfl, fun hv => hv, le_refl _⟩
  | succ k ih =>
      intro i st l st' h
      unfold generationFrom at h
      cases he : evolveOne f o e pop i st rejFuel with
      | error err => rw [he] at h; exact Except.noConfusion h
      | ok pr =>
          obtain ⟨child, st1⟩ := pr
          rw [he] at h
          simp only at h
          cases hg : generationFrom f o e pop rejFuel (i + 1) k st1 with
          | error err => rw [hg] at h; exact Except.noConfusion h
          | ok pr2 =>
              obtain ⟨rest, st2⟩ := pr2
              rw [hg] at h
              simp only [Except.ok.injEq, Prod.mk.injEq] at h
              obtain ⟨hl, hst⟩ := h
              subst hl; subst hst
              obtain ⟨hlen, hloglen, hinv, hmono⟩ := ih (i + 1) st1 rest st2 hg
              refine ⟨by simp [hlen], ?_, ?_, ?_⟩
              · rw [hloglen, evolveOne_log_len f o e pop i st rejFuel child st1 he]
                omega
              · intro hv
                exact hinv (evolveOne_bestInv f o e pop i st rejFuel child st1 he hv)
              · exact le_trans hmono
                  (evolveOne_best_mono f o e pop i st rejFuel child st1 he)

/-- Per-index characterization of the generational pass: the candidate
placed at offset `m` is the offspring evolved for parent index `i + m`
when its fitness is strictly below `self.Population[i+m].Fitness`, and
the parent `Population[i+m]` otherwise. -/
theorem generationFrom_getD (f : ℕ → List ℚ → ℚ) (o : Oracle) (e : Engine)
    (pop : List SolutionjDE) (rejFuel : ℕ) (k : ℕ) :
    ∀ (i : ℕ) (st : RState) (l : List SolutionjDE) (st' : RState),
    generationFrom f o e pop rejFuel i k st = .ok (l, st') →
    ∀ m, m < k →
      ∃ c st1 st2, evolveOne f o e pop (i + m) st1 rejFuel = .ok (c, st2) ∧
        l.getD m dummySol =
          (if c.Fitness < (e.Population.getD (i + m) dummySol).Fitness
           then c else pop.getD (i + m) dummySol) := by
  induction k with
  | zero => intro i st l st' _ m hm; exact absurd hm (Nat.not_lt_zero m)
  | succ k ih =>
      intro i st l st' h m hm
      unfold generationFrom at h
      cases he : evolveOne f o e pop i st rejFuel with
      | error err => rw [he] at h; exact Except.noConfusion h
      | ok pr =>
          obtain ⟨child, st1⟩ := pr
          rw [he] at h
          simp only at h
          cases hg : generationFrom f o e pop rejFuel (i + 1) k st1 with
          | error err => rw [hg] at h; exact Except.noConfusion h
          | ok pr2 =>
              obtain ⟨rest, st2⟩ := pr2
              rw [hg] at h
              simp only [Except.ok.injEq, Prod.mk.injEq] at h
              obtain ⟨hl, hst⟩ := h
              subst hl; subst hst
              cases m with
              | zero =>
                  refine ⟨child, st, st1, ?_, ?_⟩
                  · rw [Nat.add_zero]; exact he
                  · rw [Nat.add_zero]; rfl
              | succ m =>
                  have hm' : m < k := Nat.lt_of_succ_lt_succ hm
                  obtain ⟨c, sa, sb, hev, hsel⟩ := ih (i + 1) st1 rest st2 hg m hm'
                  refine ⟨c, sa, sb, ?_, ?_⟩
                  · rw [show i + (m + 1) = i + 1 + m by omega]; exact hev
                  · rw [show i + (m + 1) = i + 1 + m by omega]
                    exact hsel

/-- Structural facts about `generationStep` (specialization to `i = 0`,
`k = e.Np`). -/
theorem generationStep_ok (f : ℕ → List ℚ → ℚ) (o : Oracle) (e : Engine)
    (pop : List SolutionjDE) (rejFuel : ℕ) (st : RState)
    (l : List SolutionjDE) (st' : RState)
    (h : generationStep f o e pop rejFuel st = .ok (l, st')) :
    l.length = e.Np ∧ st'.log.length = st.log.length + e.Np ∧
      (BestInv st → BestInv st') ∧ st'.best.Fitness ≤ st.best.Fitness :=
  generationFrom_ok f o e pop rejFuel e.Np 0 st l st' h

/-! ### Lemmas about runLoop and run -/

/-- Structural facts about the budget loop: on a successful run, the
evaluation count (log length) strictly exceeds `nFES` and is at most
`nFES + Np`, and the best/log invariant is preserved. -/
theorem runLoop_ok (f : ℕ → List ℚ → ℚ) (o : Oracle) (rejFuel : ℕ) (fuel : ℕ) :
    ∀ (e : Engine) (FEs : ℕ) (st : RState) (e' : Engine) (st' : RState),
    runLoop f o rejFuel fuel e FEs st = .ok (e', st') →
      (st.log.length = FEs → FEs ≤ e.nFES + e.Np →
        e.nFES + 1 ≤ st'.log.length ∧ st'.log.length ≤ e.nFES + e.Np) ∧
      (BestInv st → BestInv st') ∧ st'.best.Fitness ≤ st.best.Fitness := by
  induction fuel with
  | zero => intro e FEs st e' st' h; exact Except.noConfusion h
  | succ fuel ih =>
      intro e FEs st e' st' h
      unfold runLoop at h
      by_cases hle : FEs ≤ e.nFES
      · rw [if_pos hle] at h
        cases hg : generationStep f o e e.Population rejFuel st with
        | error err => rw [hg] at h; exact Except.noConfusion h
        | ok pr =>
            obtain ⟨pop', st1⟩ := pr
            rw [hg] at h
            simp only at h
            obtain ⟨hcount, hinv, hmono⟩ :=
              ih { e with Population := pop' } (FEs + e.Np) st1 e' st' h
            obtain ⟨hlen, hloglen, hinv0, hmono0⟩ :=
              generationStep_ok f o e e.Population rejFuel st pop' st1 hg
            refine ⟨?_, ?_, le_trans hmono hmono0⟩
            · intro hstlen hbound
              exact hcount (by rw [hloglen, hstlen]) (by simp only; omega)
            · intro hv
              exact hinv (hinv0 hv)
      · rw [if_neg hle] at h
        simp only [Except.ok.injEq, Prod.mk.injEq] at h
        obtain ⟨he, hst⟩ := h
        subst he; subst hst
        refine ⟨?_, fun hv => hv, le_refl _⟩
        intro hstlen hbound
        constructor
        · omega
        · omega

theorem initPopulation_length (D NP : ℕ) (LB UB : ℚ) (o : Oracle) (r : ℕ) :
    (initPopulation D NP LB UB o r).length = NP := by
  simp [initPopulation]

/-- On any successful complete run, the number of objective evaluations
performed (the log length) strictly exceeds the budget `nFES` and is at
most `nFES + Np`. -/
theorem run_ok_count (f : ℕ → List ℚ → ℚ) (o : Oracle) (e : Engine)
    (r0 s0 rejFuel fuel : ℕ) (e' : Engine) (st' : RState)
    (h : e.run f o r0 s0 rejFuel fuel = .ok (e', st')) :
    e.nFES + 1 ≤ st'.log.length ∧ st'.log.length ≤ e.nFES + e.Np := by
  unfold Engine.run at h
  have hcnt := (runLoop_ok f o rejFuel fuel _ e.Np _ e' st' h).1
  have hlen : (evalPopulation f (initPopulation e.D e.Np e.Lower e.Upper o r0)
      { r := r0 + e.Np * e.D, s := s0, log := [], best := e.bestSolution }).2.log.length
      = e.Np := by
    rw [evalPopulation_log]
    simp [initPopulation_length]
  exact hcnt hlen (by simp only; omega)

/-- On any successful complete run starting from an unevaluated best
(`Fitness = +inf`, as the constructor leaves it), the final best fitness
equals the minimum of all objective values evaluated during the run. -/
theorem run_ok_best (f : ℕ → List ℚ → ℚ) (o : Oracle) (e : Engine)
    (r0 s0 rejFuel fuel : ℕ) (e' : Engine) (st' : RState)
    (hb : e.bestSolution.Fitness = ⊤)
    (h : e.run f o r0 s0 rejFuel fuel = .ok (e', st')) :
    st'.best.Fitness = listMin st'.log := by
  unfold Engine.run at h
  have hinv := (runLoop_ok f o rejFuel fuel _ e.Np _ e' st' h).2.1
  apply hinv
  apply evalPopulation_bestInv
  unfold BestInv
  simpa [listMin_nil] using hb

/-- When `nFES < Np`, the budget loop exits immediately: the run
performs only the initialization and its full evaluation, with no
generational transition. -/
theorem run_noGen (f : ℕ → List ℚ → ℚ) (o : Oracle) (e : Engine)
    (r0 s0 rejFuel fuel : ℕ) (h : e.nFES < e.Np) :
    e.run f o r0 s0 rejFuel (fuel + 1) =
      .ok ({ e with Population :=
              (evalPopulation f (initPopulation e.D e.Np e.Lower e.Upper o r0)
                { r := r0 + e.Np * e.D, s := s0, log := [], best := e.bestSolution }).1 },
           (evalPopulation f (initPopulation e.D e.Np e.Lower e.Upper o r0)
                { r := r0 + e.Np * e.D, s := s0, log := [], best := e.bestSolution }).2) := by
  simp only [Engine.run, runLoop]
  rw [if_neg (not_le.2 h)]

/-- With the `Tao` attribute absent and at least one parent index, the
generational pass fails immediately with `AttributeError`. -/
theorem generationStep_noTao (f : ℕ → List ℚ → ℚ) (o : Oracle) (e : Engine)
    (pop : List SolutionjDE) (rejFuel : ℕ) (st : RState)
    (hT : e.Tao = none) (hNp : 1 ≤ e.Np) :
    generationStep f o e pop rejFuel st = .error .attrError := by
  unfold generationStep
  obtain ⟨k, hk⟩ : ∃ k, e.Np = k + 1 := ⟨e.Np - 1, by omega⟩
  rw [hk]
  unfold generationFrom
  rw [evolveOne_noTao f o e pop 0 st rejFuel hT]

/-- With the `Tao` attribute absent, the budget loop fails with
`AttributeError` as soon as it attempts one generation. -/
theorem runLoop_noTao (f : ℕ → List ℚ → ℚ) (o : Oracle) (rejFuel : ℕ)
    (e : Engine) (FEs : ℕ) (st : RState) (fuel : ℕ)
    (hT : e.Tao = none) (hNp : 1 ≤ e.Np) (hle : FEs ≤ e.nFES) :
    runLoop f o rejFuel (fuel + 1) e FEs st = .error .attrError := by
  unfold runLoop
  rw [if_pos hle, generationStep_noTao f o e e.Population rejFuel st hT hNp]

/-- With the `Tao` attribute absent, a run whose budget allows at least
one generation fails with `AttributeError` inside the first
generational step. -/
theorem run_attrError (f : ℕ → List ℚ → ℚ) (o : Oracle) (e : Engine)
    (r0 s0 rejFuel fuel : ℕ)
    (hT : e.Tao = none) (hNp : 1 ≤ e.Np) (hle : e.Np ≤ e.nFES) :
    e.run f o r0 s0 rejFuel (fuel + 1) = .error .attrError := by
  unfold Engine.run
  exact runLoop_noTao f o rejFuel _ _ _ fuel hT hNp hle

/-! ### Lemmas about sampleLoop -/

/-- The donor-triple rejection loop only ever returns a value of the
sampling contract (three distinct indices below `Np`) that moreover
avoids the parent index `i`. -/
theorem sampleLoop_ok (o : Oracle) (Np i : ℕ) (hval : o.ValidSample Np) :
    ∀ (fuel s : ℕ) (rs : List ℕ) (s' : ℕ),
    sampleLoop o i s fuel = some (rs, s') →
      rs.length = 3 ∧ rs.Nodup ∧ (∀ x ∈ rs, x < Np) ∧ i ∉ rs := by
  intro fuel
  induction fuel with
  | zero => intro s rs s' h; exact Option.noConfusion h
  | succ fuel ih =>
      intro s rs s' h
      unfold sampleLoop at h
      by_cases hm : i ∈ o.sample s
      · rw [if_pos hm] at h
        exact ih (s + 1) rs s' h
      · rw [if_neg hm] at h
        simp only [Option.some.injEq, Prod.mk.injEq] at h
        obtain ⟨h1, _⟩ := h
        subst h1
        obtain ⟨hl, hnd, hmem⟩ := hval s
        exact ⟨hl, hnd, hmem, hm⟩

theorem list_len3 {l : List ℕ} (h : l.length = 3) :
    ∃ a b c, l = [a, b, c] := by
  match l, h with
  | [a, b, c], _ => exact ⟨a, b, c, rfl⟩

/-! ### Lemmas about repairVal and repair -/

theorem repairVal_mem (LB UB x : ℚ) (h : LB ≤ UB) :
    LB ≤ repairVal LB UB x ∧ repairVal LB UB x ≤ UB := by
  unfold repairVal
  by_cases h1 : UB < x
  · rw [if_pos h1, if_neg (not_lt.2 h)]
    exact ⟨h, le_refl _⟩
  · rw [if_neg h1]
    by_cases h2 : x < LB
    · rw [if_pos h2]
      exact ⟨le_refl _, h⟩
    · rw [if_neg h2]
      exact ⟨not_lt.1 h2, not_lt.1 h1⟩

theorem repairVal_of_mem (LB UB x : ℚ) (h1 : LB ≤ x) (h2 : x ≤ UB) :
    repairVal LB UB x = x := by
  unfold repairVal
  rw [if_neg (not_lt.2 h2), if_neg (not_lt.2 h1)]

theorem repairVal_of_gt (LB UB x : ℚ) (h : LB ≤ UB) (h1 : UB < x) :
    repairVal LB UB x = UB := by
  unfold repairVal
  rw [if_pos h1, if_neg (not_lt.2 h)]

theorem repairVal_of_lt (LB UB x : ℚ) (h1 : x < LB) :
    repairVal LB UB x = LB := by
  unfold repairVal
  by_cases h2 : UB < x
  · rw [if_pos h2, if_pos (lt_trans h2 h1)]
  · rw [if_neg h2, if_pos h1]

theorem repairVal_idem (LB UB x : ℚ) (h : LB ≤ UB) :
    repairVal LB UB (repairVal LB UB x) = repairVal LB UB x := by
  obtain ⟨h1, h2⟩ := repairVal_mem LB UB x h
  exact repairVal_of_mem LB UB _ h1 h2

theorem map_idem {g : ℚ → ℚ} (l : List ℚ) (h : ∀ x, g (g x) = g x) :
    (l.map g).map g = l.map g := by
  induction l with
  | nil => rfl
  | cons a l ih => simp only [List.map, ih, h a]

/-! ### Lemmas about jrandDraw and crossoverVec -/

theorem jrandDraw_lt (u : ℚ) (Np : ℕ) (h0 : 0 ≤ u) (h1 : u < 1) (hNp : 1 ≤ Np) :
    jrandDraw u Np < Np := by
  unfold jrandDraw
  have hpos : (0 : ℚ) < (Np : ℚ) := by exact_mod_cast hNp
  have hmul : u * (Np : ℚ) < ((Np : ℤ) : ℚ) := by
    push_cast
    calc u * (Np : ℚ) < 1 * (Np : ℚ) := by exact mul_lt_mul_of_pos_right h1 hpos
    _ = (Np : ℚ) := one_mul _
  have hflt : ⌊u * (Np : ℚ)⌋ < (Np : ℤ) := Int.floor_lt.2 hmul
  have hfge : (0 : ℤ) ≤ ⌊u * (Np : ℚ)⌋ :=
    Int.floor_nonneg.2 (mul_nonneg h0 hpos.le)
  omega

theorem crossoverVec_getD_jrand (o : Oracle) (r : ℕ) (Crv Fv : ℚ)
    (pop : List SolutionjDE) (i r0 r1 r2 jr D : ℕ) (hj : jr < D) :
    (crossoverVec o r Crv Fv pop i r0 r1 r2 jr D).getD jr 0 =
      mutantVal pop Fv r0 r1 r2 jr := by
  unfold crossoverVec
  rw [List.getD_eq_getElem?_getD, List.getElem?_map, List.getElem?_range hj]
  simp only [Option.map_some', Option.getD_some]
  rw [if_pos (Or.inr trivial)]

theorem repair_idem (s : SolutionjDE) (h : s.LB ≤ s.UB) :
    s.repair.repair = s.repair := by
  have hsol : (s.Solution.map (repairVal s.LB s.UB)).map (repairVal s.LB s.UB) =
      s.Solution.map (repairVal s.LB s.UB) :=
    map_idem _ (fun x => repairVal_idem s.LB s.UB x h)
  show SolutionjDE.mk s.D s.LB s.UB s.F s.Cr
      ((s.Solution.map (repairVal s.LB s.UB)).map (repairVal s.LB s.UB)) s.Fitness =
    SolutionjDE.mk s.D s.LB s.UB s.F s.Cr (s.Solution.map (repairVal s.LB s.UB)) s.Fitness
  rw [hsol]

theorem repair_mem (s : SolutionjDE) (h : s.LB ≤ s.UB) :
    ∀ x ∈ s.repair.Solution, s.LB ≤ x ∧ x ≤ s.UB := by
  intro x hx
  obtain ⟨y, _, rfl⟩ := List.mem_map.1 hx
  exact repairVal_mem s.LB s.UB y h

/-! ### Concrete fixtures (used by witnesses and counterexamples) -/

/- Batteries marks the rational arithmetic operations `@[irreducible]`;
re-enable unfolding so that concrete runs of the embedded program can be
evaluated by `decide`. -/
attribute [local semireducible] Rat.mul Rat.add Rat.sub Rat.inv


/-- Constant-zero objective function. -/
def fZero : ℕ → List ℚ → ℚ := fun _ _ => 0

/-- Oracle whose `U(0,1)` draws are all `0` and whose `n`-th
`rnd.sample(range(0,4), 3)` result is `{0,1,2,3} \ {n mod 4}`. -/
def oZero : Oracle :=
  { rand := fun _ => 0,
    sample := fun s => (List.range 4).filter (fun x => x ≠ s % 4) }

theorem oZero_validSample : oZero.ValidSample 4 := by
  intro n
  have h4 : n % 4 = 0 ∨ n % 4 = 1 ∨ n % 4 = 2 ∨ n % 4 = 3 := by omega
  unfold oZero
  rcases h4 with h | h | h | h <;> simp only [h] <;> decide

/-- A one-dimensional evaluated candidate with vector `[k]` and fitness
`k`. -/
def mkSolA (k : ℚ) : SolutionjDE :=
  { D := 1, LB := 0, UB := 10, F := 1/2, Cr := 9/10,
    Solution := [k], Fitness := (k : WithTop ℚ) }

/-- A two-dimensional evaluated candidate with vector `[k, k]` and
fitness `k`. -/
def mkSolB (k : ℚ) : SolutionjDE :=
  { D := 2, LB := 0, UB := 10, F := 1/2, Cr := 9/10,
    Solution := [k, k], Fitness := (k : WithTop ℚ) }

def popA : List SolutionjDE := [mkSolA 0, mkSolA 1, mkSolA 2, mkSolA 3]

def popB : List SolutionjDE := [mkSolB 0, mkSolB 1, mkSolB 2, mkSolB 3]

def stA : RState := { r := 0, s := 0, log := [], best := dummySol }

/-- Engine with the attributes `Tao`, `F`, `Cr` set externally
(`algo.Tao = …` in Python) so that a full run can complete. -/
def engC2 : Engine :=
  { D := 1, Np := 4, nFES := 4, Lower := 0, Upper := 1,
    Tao := some (1/2), F := some (1/2), Cr := some (1/2),
    Population := [], bestSolution := dummySol }

/-- Engine over `popA` with attributes set, for generational-step
fixtures. -/
def engA : Engine :=
  { D := 1, Np := 4, nFES := 20, Lower := 0, Upper := 10,
    Tao := some (1/2), F := some (1/2), Cr := some (1/2),
    Population := popA, bestSolution := dummySol }

/-- Engine over `popB` whose engine-level attributes (`Cr = 1`, `F = 0`)
differ from the offspring self-adapted values (`Tao = 1` redraws both
from the all-zero stream, giving offspring `F = Cr = 0`). -/
def engC3 : Engine :=
  { D := 2, Np := 4, nFES := 20, Lower := 0, Upper := 10,
    Tao := some 1, F := some 0, Cr := some 1,
    Population := popB, bestSolution := dummySol }

/-- Oracle for the `jrand` counterexample: the draw used for `jrand`
(the fourth `rnd.random()` of the offspring construction at index 0) is
`3/4`, every other draw 0; donor sample always `[1,2,3]`. -/
def oC4 : Oracle :=
  { rand := fun n => if n = 3 then 3/4 else 0,
    sample := fun _ => [1, 2, 3] }

/-- Engine over `popA` with `Tao = 0` (always inherit) and engine-level
`Cr = 0`, `F = 0`. -/
def engC4 : Engine :=
  { D := 1, Np := 4, nFES := 20, Lower := 0, Upper := 10,
    Tao := some 0, F := some 0, Cr := some 0,
    Population := popA, bestSolution := dummySol }

/-- The (successful) result of the complete run of `engC2`. -/
def resC2 : Engine × RState :=
  (engC2.run fZero oZero 0 0 5 5).toOption.getD (engC2, stA)

/-- The (successful) result of one generational step of `engA`. -/
def resA : List SolutionjDE × RState :=
  (generationStep fZero oZero engA popA 5 stA).toOption.getD ([], stA)

/-- The (successful) result of one offspring construction of `engA` at
parent index 0. -/
def resB : SolutionjDE × RState :=
  (evolveOne fZero oZero engA popA 0 stA 5).toOption.getD (dummySol, stA)

/-- Out-of-range vector for the repair witness. -/
def solC10 : SolutionjDE :=
  { D := 3, LB := 0, UB := 1, F := 1/2, Cr := 9/10,
    Solution := [-1, 1/2, 5], Fitness := ⊤ }

/-! ### Claim theorems -/

/-- C1: for every configuration built by the constructor (which accepts
but discards the `F` and `Cr` parameters and never assigns `Tao`, `F`,
`Cr`), if `nFES ≥ NP` (so at least one generational transition starts)
then `run()` fails with `AttributeError` inside the first generational
step, and if `nFES < NP` then `run()` completes normally. -/
theorem claim_C1 (D NP nFES : ℕ) (Fp Crp : ℚ) (L U : ℚ) (f : ℕ → List ℚ → ℚ)
    (o : Oracle) (rejFuel fuel : ℕ) (hNP : 1 ≤ NP) :
    (NP ≤ nFES →
      (initEngine D NP nFES Fp Crp L U o 0).run f o D 0 rejFuel (fuel + 1) =
        .error .attrError) ∧
    (nFES < NP →
      ∃ e' st', (initEngine D NP nFES Fp Crp L U o 0).run f o D 0 rejFuel (fuel + 1) =
        .ok (e', st')) := by
  constructor
  · intro hle
    exact run_attrError f o _ D 0 rejFuel fuel rfl hNP hle
  · intro hlt
    exact ⟨_, _, run_noGen f o _ D 0 rejFuel fuel hlt⟩

/-- Witness for C1 at `D=1, NP=4, nFES=10` (budget allows a generation:
`AttributeError`) and `nFES=3 < NP` (run completes). -/
theorem claim_C1_witness :
    ((initEngine 1 4 10 (1/2) (9/10) 0 1 oZero 0).run fZero oZero 1 0 3 3 =
      .error .attrError) ∧
    (∃ e' st', (initEngine 1 4 3 (1/2) (9/10) 0 1 oZero 0).run fZero oZero 1 0 3 3 =
      .ok (e', st')) :=
  ⟨(claim_C1 1 4 10 (1/2) (9/10) 0 1 fZero oZero 3 2 (by decide)).1 (by decide),
   (claim_C1 1 4 3 (1/2) (9/10) 0 1 fZero oZero 3 2 (by decide)).2 (by decide)⟩

/-- C2 counterexample: the complete run of `engC2` (`NP = 4`,
`nFES = 4 > 0`) performs 8 objective evaluations, exceeding
`nFES + NP - 1 = 7`: the loop `while FEs <= nFES` runs another full
generation when the count exactly equals the budget. -/
theorem claim_C2_counterexample :
    (engC2.run fZero oZero 0 0 5 5).map (fun p => p.2.log.length) = .ok 8 ∧
    engC2.Np = 4 ∧ engC2.nFES = 4 ∧ ¬(8 ≤ engC2.nFES + engC2.Np - 1) := by
  decide

/-- C2 (amended): over a complete run with `NP ≥ 4` and `nFES > 0`, the
total number of objective evaluations performed (the length of the
evaluation log) is at least `nFES + 1` and at most `nFES + NP`: the
loop continues while the cumulative count is `≤ nFES`, checking only
between full generations. -/
theorem claim_C2 (f : ℕ → List ℚ → ℚ) (o : Oracle) (e : Engine)
    (r0 s0 rejFuel fuel : ℕ) (e' : Engine) (st' : RState)
    (_hNP : 4 ≤ e.Np) (_hpos : 0 < e.nFES)
    (h : e.run f o r0 s0 rejFuel fuel = .ok (e', st')) :
    e.nFES + 1 ≤ st'.log.length ∧ st'.log.length ≤ e.nFES + e.Np :=
  run_ok_count f o e r0 s0 rejFuel fuel e' st' h

/-- Witness for C2 (amended) at the complete run of `engC2`. -/
theorem claim_C2_witness :
    4 ≤ engC2.Np ∧ 0 < engC2.nFES ∧
    engC2.nFES + 1 ≤ resC2.2.log.length ∧
    resC2.2.log.length ≤ engC2.nFES + engC2.Np :=
  ⟨by decide, by decide,
   (claim_C2 fZero oZero engC2 0 0 5 5 resC2.1 resC2.2 (by decide) (by decide)
      (by rfl)).1,
   (claim_C2 fZero oZero engC2 0 0 5 5 resC2.1 resC2.2 (by decide) (by decide)
      (by rfl)).2⟩

/-- C3 (code bug demonstration): in the offspring construction of
`engC3` at parent index 0, the offspring's own self-adapted values come
out as `F = 0` and `Cr = 0` (redrawn from the all-zero stream since
`Tao = 1`), yet the constructed vector is `[1, 1]` — every dimension
took the mutant value, which is what the engine attributes
`self.Cr = 1` / `self.F = 0` dictate.  Had the offspring's own
`Cr = 0` / `F = 0` been used (as the claim and the jDE algorithm
require), the same crossover would have produced `[1, 0]`: mutant only
at `jrand = 0`, the parent's value `0` at dimension 1. -/
theorem claim_C3_code_bug :
    (evolveOne fZero oZero engC3 popB 0 stA 5).toOption.map
        (fun p => (p.1.F, p.1.Cr, p.1.Solution)) = some (0, 0, [1, 1]) ∧
    crossoverVec oZero 7 0 0 popB 0 1 2 3 0 2 = [1, 0] ∧
    engC3.Cr = some 1 ∧ engC3.F = some 0 ∧
    ([1, 1] : List ℚ) ≠ [1, 0] :=
  ⟨by decide, by decide, by decide, by decide, by decide⟩

/-- C4 counterexample: in the offspring construction of `engC4`
(`D = 1`, `NP = 4`, engine `Cr = 0 ∈ [0,1)`) the `jrand` draw `3/4`
(a valid `U(0,1)` value) yields `jrand = int(3/4 * NP) = 3`, which is
not a dimension index (`D = 1`); no dimension is forced, and the
offspring's vector equals its parent's `[0]` even though the mutant
value `1` differs from the parent at every dimension. -/
theorem claim_C4_counterexample :
    (evolveOne fZero oC4 engC4 popA 0 stA 5).toOption.map (fun p => p.1.Solution) =
      some [0] ∧
    (popA.getD 0 dummySol).Solution = [0] ∧
    jrandDraw (oC4.rand 3) 4 = 3 ∧ ¬ jrandDraw (oC4.rand 3) 4 < engC4.D ∧
    (0 ≤ oC4.rand 3 ∧ oC4.rand 3 < 1) ∧
    mutantVal popA 0 1 2 3 0 ≠ (popA.getD 0 dummySol).Solution.getD 0 0 ∧
    engC4.Cr = some 0 ∧ 1 ≤ engC4.D :=
  ⟨by decide, by decide, by decide, by decide, ⟨by decide, by decide⟩,
   by decide, by decide, by decide⟩

/-- C4 (amended): the forced-mutation index `jrand = int(u * NP)` is
drawn from the population indices `0..NP-1` (not from `0..D-1`); when
the drawn `jrand` happens to be a valid dimension (`jrand < D`), the
crossover assigns the mutant value at `jrand` unconditionally, so the
offspring differs from its parent there whenever the mutant value
differs; when `jrand ≥ D` (possible whenever `NP > D`) no dimension is
forced. -/
theorem claim_C4 :
    (∀ (u : ℚ) (Np : ℕ), 0 ≤ u → u < 1 → 1 ≤ Np → jrandDraw u Np < Np) ∧
    (∀ (o : Oracle) (r : ℕ) (Crv Fv : ℚ) (pop : List SolutionjDE)
        (i r0 r1 r2 jr D : ℕ), jr < D →
      (crossoverVec o r Crv Fv pop i r0 r1 r2 jr D).getD jr 0 =
        mutantVal pop Fv r0 r1 r2 jr) :=
  ⟨jrandDraw_lt, crossoverVec_getD_jrand⟩

/-- Witness for C4 (amended): `jrand = int(3/4 * 4) = 3 < 4`, and with
`D = 1 > 0 = jrand` the crossover vector holds the mutant value at
`jrand`. -/
theorem claim_C4_witness :
    jrandDraw (3/4) 4 < 4 ∧
    (crossoverVec oZero 0 0 0 popA 0 1 2 3 0 1).getD 0 0 = mutantVal popA 0 1 2 3 0 :=
  ⟨claim_C4.1 (3/4) 4 (by decide) (by decide) (by decide),
   claim_C4.2 oZero 0 0 0 popA 0 1 2 3 0 1 (by decide)⟩

/-- C5 counterexample: constructing the engine with `NP = 3 < 4` and
`Lower = 1 ≥ 0 = Upper` succeeds and stores the invalid configuration
verbatim — no configuration error is signalled at construction. -/
theorem claim_C5_counterexample :
    (initEngine 2 3 10 (1/2) (9/10) 1 0 oZero 0).Np = 3 ∧
    (initEngine 2 3 10 (1/2) (9/10) 1 0 oZero 0).Lower = 1 ∧
    (initEngine 2 3 10 (1/2) (9/10) 1 0 oZero 0).Upper = 0 ∧
    (initEngine 2 3 10 (1/2) (9/10) 1 0 oZero 0).Tao = none ∧
    3 < 4 ∧ ((0 : ℚ) ≤ 1) := by
  decide

/-- C5 (amended): the constructor performs no validation: population
sizes `NP < 4` and bounds `Lower ≥ Upper` are accepted and stored
unchanged (no configuration error is signalled at construction), and
with `nFES < NP` such a misconfigured engine even completes `run()`
normally — invalid configurations surface, if at all, only mid-run. -/
theorem claim_C5 (D NP nFES : ℕ) (Fp Crp L U : ℚ) (o : Oracle)
    (f : ℕ → List ℚ → ℚ) (rejFuel fuel : ℕ)
    (_hbad : NP < 4 ∨ U ≤ L) :
    ((initEngine D NP nFES Fp Crp L U o 0).Np = NP ∧
     (initEngine D NP nFES Fp Crp L U o 0).Lower = L ∧
     (initEngine D NP nFES Fp Crp L U o 0).Upper = U ∧
     (initEngine D NP nFES Fp Crp L U o 0).Tao = none) ∧
    (nFES < NP → ∃ e' st',
      (initEngine D NP nFES Fp Crp L U o 0).run f o D 0 rejFuel (fuel + 1) =
        .ok (e', st')) :=
  ⟨⟨rfl, rfl, rfl, rfl⟩,
   fun hlt => ⟨_, _, run_noGen f o _ D 0 rejFuel fuel hlt⟩⟩

/-- Witness for C5 (amended) at `NP = 3`, `Lower = 1 > 0 = Upper`,
`nFES = 2 < NP`. -/
theorem claim_C5_witness :
    (initEngine 2 3 2 (1/2) (9/10) 1 0 oZero 0).Np = 3 ∧
    (∃ e' st',
      (initEngine 2 3 2 (1/2) (9/10) 1 0 oZero 0).run fZero oZero 2 0 3 3 =
        .ok (e', st')) :=
  ⟨(claim_C5 2 3 2 (1/2) (9/10) 1 0 oZero fZero 3 2 (by decide)).1.1,
   (claim_C5 2 3 2 (1/2) (9/10) 1 0 oZero fZero 3 2 (by decide)).2 (by decide)⟩

/-- C6: across one generational transition over `self.Population`, the
new population has one candidate per index, and at every index `i` the
candidate is the evolved offspring exactly when the offspring's fitness
is strictly lower than `self.Population[i].Fitness` (so ties keep the
parent), and otherwise the unchanged parent; hence the fitness at each
index never increases across the transition. -/
theorem claim_C6 (f : ℕ → List ℚ → ℚ) (o : Oracle) (e : Engine) (rejFuel : ℕ)
    (st : RState) (l : List SolutionjDE) (st' : RState)
    (h : generationStep f o e e.Population rejFuel st = .ok (l, st')) :
    l.length = e.Np ∧
    ∀ i, i < e.Np →
      (∃ c st1 st2, evolveOne f o e e.Population i st1 rejFuel = .ok (c, st2) ∧
        l.getD i dummySol =
          (if c.Fitness < (e.Population.getD i dummySol).Fitness then c
           else e.Population.getD i dummySol)) ∧
      (l.getD i dummySol).Fitness ≤ (e.Population.getD i dummySol).Fitness := by
  refine ⟨(generationStep_ok f o e e.Population rejFuel st l st' h).1, ?_⟩
  intro i hi
  obtain ⟨c, st1, st2, hev, hsel⟩ :=
    generationFrom_getD f o e e.Population rejFuel e.Np 0 st l st' h i hi
  rw [Nat.zero_add] at hev hsel
  refine ⟨⟨c, st1, st2, hev, hsel⟩, ?_⟩
  rw [hsel, sel_fitness]
  exact min_le_right _ _

/-- Witness for C6 at the concrete generational step of `engA`. -/
theorem claim_C6_witness :
    resA.1.length = engA.Np ∧
    (resA.1.getD 0 dummySol).Fitness ≤ (engA.Population.getD 0 dummySol).Fitness :=
  ⟨(claim_C6 fZero oZero engA 5 stA resA.1 resA.2 (by rfl)).1,
   ((claim_C6 fZero oZero engA 5 stA resA.1 resA.2 (by rfl)).2 0 (by decide)).2⟩

/-- C7: the recorded best fitness never increases across a generational
transition; the best is replaced only when a newly evaluated candidate's
fitness is strictly lower (ties keep the earlier best, per the update
`if new < best then new else best`); and on any successful run starting
from the constructor's unevaluated best (`Fitness = +inf`), the value
`run()` returns equals the minimum fitness over all evaluations
performed during the run. -/
theorem claim_C7 :
    (∀ (f : ℕ → List ℚ → ℚ) (o : Oracle) (e : Engine) (pop : List SolutionjDE)
        (rejFuel : ℕ) (st : RState) (l : List SolutionjDE) (st' : RState),
      generationStep f o e pop rejFuel st = .ok (l, st') →
        st'.best.Fitness ≤ st.best.Fitness) ∧
    (∀ (f : ℕ → List ℚ → ℚ) (o : Oracle) (e : Engine) (pop : List SolutionjDE)
        (i : ℕ) (st : RState) (rejFuel : ℕ) (c : SolutionjDE) (st' : RState),
      evolveOne f o e pop i st rejFuel = .ok (c, st') →
        st'.best = if c.Fitness < st.best.Fitness then c else st.best) ∧
    (∀ (f : ℕ → List ℚ → ℚ) (o : Oracle) (e : Engine) (r0 s0 rejFuel fuel : ℕ)
        (e' : Engine) (st' : RState),
      e.bestSolution.Fitness = ⊤ →
      e.run f o r0 s0 rejFuel fuel = .ok (e', st') →
        st'.best.Fitness = listMin st'.log) := by
  refine ⟨?_, ?_, ?_⟩
  · intro f o e pop rejFuel st l st' h
    exact (generationFrom_ok f o e pop rejFuel e.Np 0 st l st' h).2.2.2
  · intro f o e pop i st rejFuel c st' h
    obtain ⟨v, hv, hlog, hbest⟩ := evolveOne_ok f o e pop i st rejFuel c st' h
    exact hbest
  · intro f o e r0 s0 rejFuel fuel e' st' hb h
    exact run_ok_best f o e r0 s0 rejFuel fuel e' st' hb h

/-- Witness for C7 at the concrete step of `engA` (best monotone), the
concrete offspring of `engA` (strict-improvement update rule), and the
complete run of `engC2` (returned value is the minimum of the log). -/
theorem claim_C7_witness :
    resA.2.best.Fitness ≤ stA.best.Fitness ∧
    resB.2.best = (if resB.1.Fitness < stA.best.Fitness then resB.1 else stA.best) ∧
    resC2.2.best.Fitness = listMin resC2.2.log :=
  ⟨claim_C7.1 fZero oZero engA popA 5 stA resA.1 resA.2 (by rfl),
   claim_C7.2.1 fZero oZero engA popA 0 stA 5 resB.1 resB.2 (by rfl),
   claim_C7.2.2 fZero oZero engC2 0 0 5 5 resC2.1 resC2.2 (by rfl) (by rfl)⟩

/-- C8: every successfully generated offspring at parent index `i` drew
its donor triple through the rejection-sampling loop, and (under the
sampling contract of `rnd.sample(range(0, Np), 3)`, with `NP ≥ 4`) that
triple `[r0, r1, r2]` is pairwise distinct, all below `NP`, and all
different from `i`. -/
theorem claim_C8 (f : ℕ → List ℚ → ℚ) (o : Oracle) (e : Engine)
    (pop : List SolutionjDE) (i : ℕ) (st : RState) (rejFuel : ℕ)
    (c : SolutionjDE) (st' : RState)
    (hval : o.ValidSample e.Np) (_hNP : 4 ≤ e.Np)
    (h : evolveOne f o e pop i st rejFuel = .ok (c, st')) :
    ∃ rs s2, sampleLoop o i st.s rejFuel = some (rs, s2) ∧
      ∃ a b d, rs = [a, b, d] ∧ a ≠ b ∧ a ≠ d ∧ b ≠ d ∧
        a ≠ i ∧ b ≠ i ∧ d ≠ i ∧ a < e.Np ∧ b < e.Np ∧ d < e.Np := by
  unfold evolveOne at h
  cases hT : e.Tao with
  | none => rw [hT] at h; exact Except.noConfusion h
  | some tao =>
    rw [hT] at h
    simp only at h
    cases hs : sampleLoop o i st.s rejFuel with
    | none => rw [hs] at h; exact Except.noConfusion h
    | some pr =>
      obtain ⟨rs, s2⟩ := pr
      obtain ⟨hlen, hnd, hmem, hni⟩ := sampleLoop_ok o e.Np i hval rejFuel st.s rs s2 hs
      obtain ⟨a, b, d, habd⟩ := list_len3 hlen
      subst habd
      have hab : a ≠ b := by intro hq; subst hq; simp [List.nodup_cons] at hnd
      have had : a ≠ d := by intro hq; subst hq; simp [List.nodup_cons] at hnd
      have hbd : b ≠ d := by intro hq; subst hq; simp [List.nodup_cons] at hnd
      have hai : a ≠ i := by intro hq; subst hq; simp at hni
      have hbi : b ≠ i := by intro hq; subst hq; simp at hni
      have hdi : d ≠ i := by intro hq; subst hq; simp at hni
      exact ⟨[a, b, d], s2, rfl, a, b, d, rfl, hab, had, hbd, hai, hbi, hdi,
        hmem a (by simp), hmem b (by simp), hmem d (by simp)⟩

/-- Witness for C8 at the concrete offspring of `engA` at parent
index 0. -/
theorem claim_C8_witness :
    ∃ rs s2, sampleLoop oZero 0 stA.s 5 = some (rs, s2) ∧
      ∃ a b d, rs = [a, b, d] ∧ a ≠ b ∧ a ≠ d ∧ b ≠ d ∧
        a ≠ 0 ∧ b ≠ 0 ∧ d ≠ 0 ∧ a < engA.Np ∧ b < engA.Np ∧ d < engA.Np :=
  claim_C8 fZero oZero engA popA 0 stA 5 resB.1 resB.2 oZero_validSample
    (by decide) (by rfl)

/-- C9: when `0 < nFES < NP`, a constructed engine's `run()` still
initializes the population, evaluates each of its `NP` candidates
exactly once (the log is exactly the initial population's objective
values), executes no generational transition, and returns the best
(minimum) initial fitness normally rather than treating the
zero-generation case as an error. -/
theorem claim_C9 (D NP nFES : ℕ) (Fp Crp : ℚ) (L U : ℚ) (f : ℕ → List ℚ → ℚ)
    (o : Oracle) (rejFuel fuel : ℕ) (_h0 : 0 < nFES) (h1 : nFES < NP) :
    ∃ e' st',
      (initEngine D NP nFES Fp Crp L U o 0).run f o D 0 rejFuel (fuel + 1) =
        .ok (e', st') ∧
      st'.log = (initPopulation D NP L U o D).map (fun p => f p.D p.Solution) ∧
      st'.log.length = NP ∧
      st'.best.Fitness = listMin st'.log := by
  have hrun := run_noGen f o (initEngine D NP nFES Fp Crp L U o 0) D 0 rejFuel fuel h1
  refine ⟨_, _, hrun, ?_, ?_, ?_⟩
  · rw [evalPopulation_log]
    exact List.nil_append _
  · rw [evalPopulation_log]
    simp only [List.nil_append, List.length_map]
    exact initPopulation_length _ _ _ _ _ _
  · exact run_ok_best f o _ D 0 rejFuel (fuel + 1) _ _ rfl hrun

/-- Witness for C9 at `D=1, NP=4, nFES=3`. -/
theorem claim_C9_witness :
    ∃ e' st',
      (initEngine 1 4 3 (1/2) (9/10) 0 1 oZero 0).run fZero oZero 1 0 3 (2 + 1) =
        .ok (e', st') ∧
      st'.log = (initPopulation 1 4 0 1 oZero 1).map (fun p => fZero p.D p.Solution) ∧
      st'.log.length = 4 ∧
      st'.best.Fitness = listMin st'.log :=
  claim_C9 1 4 3 (1/2) (9/10) 0 1 fZero oZero 3 2 (by decide) (by decide)

/-- C10: for bounds `LB ≤ UB`, `repair` is idempotent, every component
of a repaired vector lies in `[LB, UB]`, and componentwise: values above
`UB` are clamped to `UB`, values below `LB` to `LB`, and in-range values
are left unchanged. -/
theorem claim_C10 (s : SolutionjDE) (h : s.LB ≤ s.UB) :
    s.repair.repair = s.repair ∧
    (∀ x ∈ s.repair.Solution, s.LB ≤ x ∧ x ≤ s.UB) ∧
    (∀ x : ℚ, s.UB < x → repairVal s.LB s.UB x = s.UB) ∧
    (∀ x : ℚ, x < s.LB → repairVal s.LB s.UB x = s.LB) ∧
    (∀ x : ℚ, s.LB ≤ x → x ≤ s.UB → repairVal s.LB s.UB x = x) :=
  ⟨repair_idem s h, repair_mem s h,
   fun x hx => repairVal_of_gt s.LB s.UB x h hx,
   fun x hx => repairVal_of_lt s.LB s.UB x hx,
   fun x h1 h2 => repairVal_of_mem s.LB s.UB x h1 h2⟩

/-- Witness for C10 at the out-of-range vector `[-1, 1/2, 5]` with
bounds `[0, 1]`. -/
theorem claim_C10_witness :
    solC10.repair.repair = solC10.repair ∧
    repairVal 0 1 5 = 1 ∧ repairVal 0 1 (-1) = 0 ∧ repairVal 0 1 (1/2) = 1/2 :=
  ⟨(claim_C10 solC10 (by decide)).1,
   (claim_C10 solC10 (by decide)).2.2.1 5 (by decide),
   (claim_C10 solC10 (by decide)).2.2.2.1 (-1) (by decide),
   (claim_C10 solC10 (by decide)).2.2.2.2 (1/2) (by decide) (by decide)⟩
